import Mathlib

/-!
Verification development for the zfq columnar FASTQ codec (`src/zfq.py`).

The program is embedded shallowly:

* text streams are `List Char`; Python `readline` / file iteration is modelled
  by `splitLines` (each returned line keeps its trailing `'\n'`; a final
  unterminated line is returned without one; `readline` at EOF returning `""`
  corresponds to the line list being exhausted);
* the splitting loop of `compress` (lines 50-57 of `zfq.py`) is `splitLoopL`
  over the line list, and the reconstruction loop of `uncompress`
  (lines 319-329) is `reassembleL`;
* the filesystem is a partial map from paths (component lists) to file data;
  `compress` and `uncompress` are state-passing functions returning the final
  filesystem and an `Except` result.  The external `zstd` codec is an opaque
  byte-for-byte invertible service, so a compressed column file is modelled as
  carrying the column text itself; `tar` archives carry their named entries in
  order.  Temporary-directory names (`uuid4`) and the source modification time
  are parameters.  MD5 is an opaque content hash, passed as a function
  parameter `md5f`; no structure of the digest is used anywhere.
-/

namespace Zfq

/-- Python `str.strip()` whitespace test, restricted to the ASCII whitespace
characters (the only ones relevant for FASTQ text). -/
def pyIsSpace (c : Char) : Bool :=
  c = ' ' || c = '\t' || c = '\n' || c = '\r' || c = '\x0b' || c = '\x0c'

/-- Python `str.strip()`: drop whitespace from both ends of the string. -/
def pyStrip (s : List Char) : List Char :=
  ((s.dropWhile pyIsSpace).reverse.dropWhile pyIsSpace).reverse

/-- Helper for `splitLines`: `acc` holds the (reversed) characters of the
current line read so far. -/
def splitLinesAux : List Char → List Char → List (List Char)
  | acc, [] => if acc = [] then [] else [acc.reverse]
  | acc, c :: cs =>
    if c = '\n' then (acc.reverse ++ ['\n']) :: splitLinesAux [] cs
    else splitLinesAux (c :: acc) cs

/-- Split a character stream into the successive results of Python
`readline`: every line keeps its trailing newline, a final unterminated line
is kept without one, and EOF yields no further lines. -/
def splitLines (s : List Char) : List (List Char) :=
  splitLinesAux [] s

/-- The record-splitting loop of `compress` (`zfq.py` lines 50-57), over the
line list of the input.  Per iteration the loop reads the identifier line
`rec_id`, writes `rec_id[1:]` to the header column, writes
`reader.readline().strip()` to the sequence column, discards the separator
line, and writes the quality line verbatim.  `readline` at EOF returns `""`,
whose contribution (`""[1:]`, `"".strip()`, `""`) is empty, which the short
patterns reproduce.  Returns (header column, sequence column without the
sentinel, quality column). -/
def splitLoopL : List (List Char) → List Char × List Char × List Char
  | [] => ([], [], [])
  | [idl] => (idl.drop 1, [], [])
  | [idl, sl] => (idl.drop 1, pyStrip sl, [])
  | [idl, sl, _sep] => (idl.drop 1, pyStrip sl, [])
  | idl :: sl :: _sep :: ql :: rest =>
    let r := splitLoopL rest
    (idl.drop 1 ++ r.1, pyStrip sl ++ r.2.1, ql ++ r.2.2)

/-- Splitting of a raw FASTQ character stream into the three columns
(header, sequence body, quality), as performed by `compress`. -/
def splitFastq (s : List Char) : List Char × List Char × List Char :=
  splitLoopL (splitLines s)

/-- Number of newline characters in a stream: `wc -l` (`zfq.py` line 60). -/
def countNL (s : List Char) : Nat :=
  (s.filter (· = '\n')).length

/-- The reconstruction loop of `uncompress` (`zfq.py` lines 324-329): header
lines and quality lines are consumed in lockstep (Python `zip` stops at the
shorter file); each step reads `len(rec_qual) - 1` characters from the
sequence character stream and emits `"@" + rec_head`, the sequence slice plus
a newline, the fixed `"+\n"` separator and the quality line verbatim. -/
def reassembleL : List (List Char) → List (List Char) → List Char → List Char
  | hl :: hrest, ql :: qrest, seqs =>
    let n := ql.length - 1
    '@' :: hl ++ (seqs.take n ++ ['\n']) ++ '+' :: '\n' :: ql
      ++ reassembleL hrest qrest (seqs.drop n)
  | _, _, _ => []

/-- Full reconstruction from the three decompressed column texts
(`zfq.py` lines 319-329): `reader_seq.read(2)` discards the sentinel prefix
of the sequence column, then the lockstep loop runs. -/
def uncompressContent (headD qualD seqD : List Char) : List Char :=
  reassembleL (splitLines headD) (splitLines qualD) (seqD.drop 2)

/-- A FASTQ record: identifier without the leading `@`, sequence, quality. -/
structure Record where
  id : List Char
  seq : List Char
  qual : List Char
deriving DecidableEq

/-- A record of a valid FASTQ stream: no embedded newlines, sequence and
quality of equal length (the load-bearing FASTQ invariant), and a sequence
that Python `strip()` leaves untouched (no boundary whitespace). -/
def ValidRecord (r : Record) : Prop :=
  '\n' ∉ r.id ∧ '\n' ∉ r.seq ∧ '\n' ∉ r.qual ∧
    r.seq.length = r.qual.length ∧ pyStrip (r.seq ++ ['\n']) = r.seq

/-- Validity of a whole record stream. -/
def ValidStream (rs : List Record) : Prop :=
  ∀ r ∈ rs, ValidRecord r

instance (r : Record) : Decidable (ValidRecord r) := by
  unfold ValidRecord; infer_instance

instance (rs : List Record) : Decidable (ValidStream rs) := by
  unfold ValidStream; infer_instance

/-- Four-line textual form of one FASTQ record. -/
def encodeRecord (r : Record) : List Char :=
  '@' :: r.id ++ '\n' :: r.seq ++ '\n' :: '+' :: '\n' :: r.qual ++ ['\n']

/-- Textual form of a FASTQ record stream. -/
def encodeStream (rs : List Record) : List Char :=
  (rs.map encodeRecord).flatten

/-- Newline-terminated concatenation of a list of lines. -/
def lineCol (ls : List (List Char)) : List Char :=
  (ls.map (· ++ ['\n'])).flatten

/-- Header column produced by splitting a record stream. -/
def headCol (rs : List Record) : List Char :=
  lineCol (rs.map Record.id)

/-- Quality column produced by splitting a record stream. -/
def qualCol (rs : List Record) : List Char :=
  lineCol (rs.map Record.qual)

/-- Sequence column body (without sentinel) produced by splitting. -/
def seqCol (rs : List Record) : List Char :=
  (rs.map Record.seq).flatten

/-- The metadata record stored in `info.json` (`zfq.py` lines 64-70): `seq`
is the `wc -l` newline count and `nt` the `wc -m` character count of the
quality column, `md5` is the content hash of the original input (computed
before any transformation) and `mtime` its modification time. -/
structure Info where
  seq : Nat
  nt : Nat
  md5 : Nat
  mtime : Int
deriving DecidableEq

/-- Metadata computed by `compress` for a given input content. -/
def infoOf (md5f : List Char → Nat) (mtime : Int) (content : List Char) : Info :=
  { seq := countNL (splitFastq content).2.2
    nt := (splitFastq content).2.2.length
    md5 := md5f content
    mtime := mtime }

/-- Data stored at one filesystem path: a text file, the parsed `info.json`
metadata, a tar archive with its ordered named entries, or a directory.
A zstd-compressed column file stores the column text itself (the external
codec is byte-for-byte invertible and opaque). -/
inductive FData where
  | text (s : List Char)
  | meta (i : Info)
  | tar (entries : List (String × FData))
  | dir

/-- Filesystem paths, as component lists (`["t1", "head.txt"]` stands for
`t1/head.txt`). -/
abbrev Path := List String

/-- A filesystem: a partial map from paths to file data. -/
abbrev FS := Path → Option FData

/-- Create or overwrite a file. -/
def fsWrite (fs : FS) (p : Path) (d : FData) : FS :=
  fun q => if q = p then some d else fs q

/-- `os.remove`. -/
def fsRemove (fs : FS) (p : Path) : FS :=
  fun q => if q = p then none else fs q

/-- `shutil.rmtree`: remove a directory and everything below it. -/
def fsRmtree (fs : FS) (d : Path) : FS :=
  fun q => if d <+: q then none else fs q

/-- `os.makedirs` for the temporary workspace directory. -/
def fsMkdir (fs : FS) (d : Path) : FS :=
  fsWrite fs d FData.dir

/-- The path `out_path + ".testmd5"` (`zfq.py` line 132): the suffix is glued
onto the last path component. -/
def testPath (p : Path) : Path :=
  p.dropLast ++ [p.getLastD "" ++ ".testmd5"]

/-- Errors surfaced by the operations, named after the Python exceptions
they embed: `fileNotFound` for `FileNotFoundError` (opening a missing file),
`badArchive` for `tarfile.ReadError` (opening a non-tar file),
`missingInfo` for the `FileNotFoundError` raised when `info.json` is absent
from the extracted archive, `zstdFailed` for the
`subprocess.CalledProcessError` raised when `zstd -d` is invoked on a
missing entry, and `consistency` for the bare
`Exception("Uncompressed file from archive is not identical to original
file.")` of `zfq.py` line 335. -/
inductive ZErr where
  | fileNotFound (p : Path)
  | badArchive (p : Path)
  | missingInfo
  | zstdFailed (name : String)
  | consistency
deriving DecidableEq

/-- `archive.extractall(tmp_dir)` (`zfq.py` line 286): write every entry of
the archive under the workspace directory, in order. -/
def extractAll (fs : FS) (tmp : Path) (entries : List (String × FData)) : FS :=
  entries.foldl (fun a e => fsWrite a (tmp ++ [e.1]) e.2) fs

/-- Body of `uncompress` (`zfq.py` lines 282-335), i.e. the part guarded by
`try`: open the archive, extract it into the workspace, read `info.json`,
run `zstd -d` on the three columns in source order (sequences, qualities,
headers; each decompression writes the plain file and removes the `.zst`
one, and fails when its input entry is missing), write the reconstructed
FASTQ to `outp`, and finally compare the stored hash with the hash of the
reconstruction unless `skip` is set. -/
def uncompressBody (md5f : List Char → Nat) (fs : FS) (inp outp tmp : Path)
    (skip : Bool) : FS × Except ZErr Unit :=
  match fs inp with
  | some (FData.tar entries) =>
    let fs1 := extractAll fs tmp entries
    match fs1 (tmp ++ ["info.json"]) with
    | some (FData.meta info) =>
      match fs1 (tmp ++ ["seq.fa.zst"]) with
      | some (FData.text seqD) =>
        let fs2 := fsRemove (fsWrite fs1 (tmp ++ ["seq.fa"]) (FData.text seqD))
          (tmp ++ ["seq.fa.zst"])
        match fs2 (tmp ++ ["qual.txt.zst"]) with
        | some (FData.text qualD) =>
          let fs3 := fsRemove (fsWrite fs2 (tmp ++ ["qual.txt"]) (FData.text qualD))
            (tmp ++ ["qual.txt.zst"])
          match fs3 (tmp ++ ["head.txt.zst"]) with
          | some (FData.text headD) =>
            let fs4 := fsRemove (fsWrite fs3 (tmp ++ ["head.txt"]) (FData.text headD))
              (tmp ++ ["head.txt.zst"])
            let content := uncompressContent headD qualD seqD
            let fs5 := fsWrite fs4 outp (FData.text content)
            if skip = false ∧ info.md5 ≠ md5f content then
              (fs5, Except.error ZErr.consistency)
            else (fs5, Except.ok ())
          | _ => (fs3, Except.error (ZErr.zstdFailed "head.txt.zst"))
        | _ => (fs2, Except.error (ZErr.zstdFailed "qual.txt.zst"))
      | _ => (fs1, Except.error (ZErr.zstdFailed "seq.fa.zst"))
    | _ => (fs1, Except.error ZErr.missingInfo)
  | some _ => (fs, Except.error (ZErr.badArchive inp))
  | none => (fs, Except.error (ZErr.fileNotFound inp))

/-- `uncompress` (`zfq.py` lines 262-337): create the workspace, run the
body, and remove the workspace on every exit path (`finally`), surfacing the
body's outcome afterwards. -/
def uncompress (md5f : List Char → Nat) (fs : FS) (inp outp : Path)
    (skip : Bool) (tmp : Path) : FS × Except ZErr Unit :=
  let b := uncompressBody md5f (fsMkdir fs tmp) inp outp tmp skip
  (fsRmtree b.1 tmp, b.2)

/-- The four archive entries written by `compress` (`zfq.py` lines 101-125),
in source order, for the given split columns and metadata.  `seqE` is the
sentinel-prefixed sequence column. -/
def archiveEntries (cols : List Char × List Char × List Char) (info : Info) :
    List (String × FData) :=
  [("head.txt.zst", FData.text cols.1),
   ("seq.fa.zst", FData.text ('>' :: '\n' :: cols.2.1)),
   ("qual.txt.zst", FData.text cols.2.2),
   ("info.json", FData.meta info)]

/-- Body of `compress` (`zfq.py` lines 42-126), i.e. the part guarded by
`try`: read the input (transparently gunzipped), split it into the three
column files (the sequence column prefixed with the `">\n"` sentinel), write
`info.json` from the `wc -lm` counts of the quality column and the input's
hash and mtime, compress each column (modelled as writing the `.zst` file
with the same content and removing the original, in source order: seq, qual,
head), and write the four-entry tar archive at `outp`. -/
def compressBody (md5f : List Char → Nat) (fs : FS) (inp outp tmp : Path)
    (mtime : Int) : FS × Except ZErr Unit :=
  match fs inp with
  | some (FData.text content) =>
    let cols := splitFastq content
    let seqE : List Char := '>' :: '\n' :: cols.2.1
    let info := infoOf md5f mtime content
    let fs1 := fsWrite fs (tmp ++ ["head.txt"]) (FData.text cols.1)
    let fs2 := fsWrite fs1 (tmp ++ ["seq.fa"]) (FData.text seqE)
    let fs3 := fsWrite fs2 (tmp ++ ["qual.txt"]) (FData.text cols.2.2)
    let fs4 := fsWrite fs3 (tmp ++ ["info.json"]) (FData.meta info)
    let fs5 := fsRemove (fsWrite fs4 (tmp ++ ["seq.fa.zst"]) (FData.text seqE))
      (tmp ++ ["seq.fa"])
    let fs6 := fsRemove (fsWrite fs5 (tmp ++ ["qual.txt.zst"]) (FData.text cols.2.2))
      (tmp ++ ["qual.txt"])
    let fs7 := fsRemove (fsWrite fs6 (tmp ++ ["head.txt.zst"]) (FData.text cols.1))
      (tmp ++ ["head.txt"])
    let fs8 := fsWrite fs7 outp (FData.tar (archiveEntries cols info))
    (fs8, Except.ok ())
  | _ => (fs, Except.error (ZErr.fileNotFound inp))

/-- `compress` (`zfq.py` lines 21-134): create the workspace, run the body,
remove the workspace on every exit path (`finally`); then, unless the check
is skipped, uncompress the fresh archive to `out_path + ".testmd5"` with its
own workspace `tmp2` and delete the test file if the internal consistency
check succeeded (`zfq.py` lines 130-134; on failure the raised error
propagates and the test file is left in place). -/
def compress (md5f : List Char → Nat) (fs : FS) (inp outp : Path)
    (skip : Bool) (tmp1 tmp2 : Path) (mtime : Int) : FS × Except ZErr Unit :=
  let b := compressBody md5f (fsMkdir fs tmp1) inp outp tmp1 mtime
  let fs' := fsRmtree b.1 tmp1
  match b.2 with
  | Except.error e => (fs', Except.error e)
  | Except.ok _ =>
    if skip then (fs', Except.ok ())
    else
      match uncompress md5f fs' outp (testPath outp) false tmp2 with
      | (fs'', Except.ok _) => (fsRemove fs'' (testPath outp), Except.ok ())
      | (fs'', Except.error e) => (fs'', Except.error e)

/-- The content reconstructed from the archive that `compress` just wrote
from `content`: what the internal `uncompress` self-check compares (by hash)
against the original input. -/
def roundTripContent (content : List Char) : List Char :=
  uncompressContent (splitFastq content).1 (splitFastq content).2.2
    ('>' :: '\n' :: (splitFastq content).2.1)

/-- Concrete stand-in content hash used to instantiate the opaque `md5f`
parameter in concrete runs: the content length. -/
def md5len : List Char → Nat := List.length

/-- A filesystem holding a single file. -/
def singleFS (p : Path) (d : FData) : FS :=
  fun q => if q = p then some d else none

/-- The two-record scenario stream of the specification:
`(@r1, ACGT, +, !!!!)` and `(@r2, GG, +, ##)`. -/
def scenarioRecords : List Record :=
  [⟨"r1".toList, "ACGT".toList, "!!!!".toList⟩,
   ⟨"r2".toList, "GG".toList, "##".toList⟩]

theorem splitLinesAux_newline (l : List Char) (hn : '\n' ∉ l) :
    ∀ (acc rest : List Char),
      splitLinesAux acc (l ++ '\n' :: rest) =
        (acc.reverse ++ (l ++ ['\n'])) :: splitLinesAux [] rest := by
  induction l with
  | nil => intro acc rest; simp [splitLinesAux]
  | cons c l ih =>
    intro acc rest
    have hc : c ≠ '\n' := fun h => hn (h ▸ List.mem_cons_self c l)
    have hn' : '\n' ∉ l := fun h => hn (List.mem_cons_of_mem c h)
    simp only [List.cons_append, splitLinesAux, if_neg hc, List.append_eq]
    rw [ih hn']
    simp

theorem splitLines_newline (l rest : List Char) (hn : '\n' ∉ l) :
    splitLines (l ++ '\n' :: rest) = (l ++ ['\n']) :: splitLines rest := by
  simpa [splitLines] using splitLinesAux_newline l hn [] rest

theorem splitLines_nil : splitLines [] = [] := rfl

theorem splitLines_lineCol (L : List (List Char)) (hL : ∀ l ∈ L, '\n' ∉ l)
    (rest : List Char) :
    splitLines (lineCol L ++ rest) = L.map (· ++ ['\n']) ++ splitLines rest := by
  induction L with
  | nil => simp [lineCol]
  | cons a L ih =>
    have ha : '\n' ∉ a := hL a (List.mem_cons_self a L)
    have hL' : ∀ l ∈ L, '\n' ∉ l := fun l hl => hL l (List.mem_cons_of_mem a hl)
    have : lineCol (a :: L) ++ rest = a ++ '\n' :: (lineCol L ++ rest) := by
      simp [lineCol]
    rw [this, splitLines_newline _ _ ha, ih hL']
    simp

theorem splitLines_lineCol_nil (L : List (List Char)) (hL : ∀ l ∈ L, '\n' ∉ l) :
    splitLines (lineCol L) = L.map (· ++ ['\n']) := by
  have := splitLines_lineCol L hL []
  simpa [splitLines_nil] using this

theorem splitLines_encodeRecord (r : Record) (h : ValidRecord r) (rest : List Char) :
    splitLines (encodeRecord r ++ rest) =
      ('@' :: r.id ++ ['\n']) :: (r.seq ++ ['\n']) :: ['+', '\n'] ::
        (r.qual ++ ['\n']) :: splitLines rest := by
  obtain ⟨hid, hseq, hqual, _, _⟩ := h
  have e1 : encodeRecord r ++ rest =
      ('@' :: r.id) ++ '\n' :: (r.seq ++ '\n' :: (['+'] ++ '\n' :: (r.qual ++ '\n' :: rest))) := by
    simp [encodeRecord]
  rw [e1, splitLines_newline _ _ (by simp [hid]),
    splitLines_newline _ _ hseq, splitLines_newline _ _ (by simp),
    splitLines_newline _ _ hqual]
  rfl

theorem splitFastq_encode_append (rs : List Record) (h : ValidStream rs)
    (rest : List Char) :
    splitFastq (encodeStream rs ++ rest) =
      (headCol rs ++ (splitFastq rest).1,
       seqCol rs ++ (splitFastq rest).2.1,
       qualCol rs ++ (splitFastq rest).2.2) := by
  induction rs with
  | nil => simp [encodeStream, headCol, seqCol, qualCol, lineCol]
  | cons r rs ih =>
    have hr : ValidRecord r := h r (List.mem_cons_self r rs)
    have hrs : ValidStream rs := fun x hx => h x (List.mem_cons_of_mem r hx)
    have e1 : encodeStream (r :: rs) ++ rest = encodeRecord r ++ (encodeStream rs ++ rest) := by
      simp [encodeStream]
    unfold splitFastq
    rw [e1, splitLines_encodeRecord r hr]
    show splitLoopL (_ :: _ :: _ :: _ :: splitLines (encodeStream rs ++ rest)) = _
    simp only [splitLoopL]
    have ihl := ih hrs
    unfold splitFastq at ihl
    rw [ihl]
    have hdrop : ('@' :: r.id ++ ['\n']).drop 1 = r.id ++ ['\n'] := by simp
    rw [hdrop, hr.2.2.2.2]
    simp [headCol, seqCol, qualCol, lineCol]

theorem splitFastq_encode (rs : List Record) (h : ValidStream rs) :
    splitFastq (encodeStream rs) = (headCol rs, seqCol rs, qualCol rs) := by
  have := splitFastq_encode_append rs h []
  simpa [splitFastq, splitLines_nil, splitLoopL] using this

theorem reassembleL_encode (rs : List Record) (h : ValidStream rs) :
    ∀ (hExtra : List (List Char)) (sExtra : List Char),
      reassembleL ((rs.map Record.id).map (· ++ ['\n']) ++ hExtra)
        ((rs.map Record.qual).map (· ++ ['\n'])) (seqCol rs ++ sExtra) =
        encodeStream rs := by
  induction rs with
  | nil =>
    intro hExtra sExtra
    cases hExtra <;> simp [reassembleL, encodeStream]
  | cons r rs ih =>
    intro hExtra sExtra
    have hr : ValidRecord r := h r (List.mem_cons_self r rs)
    have hrs : ValidStream rs := fun x hx => h x (List.mem_cons_of_mem r hx)
    show reassembleL ((r.id ++ ['\n']) :: ((rs.map Record.id).map (· ++ ['\n']) ++ hExtra))
      ((r.qual ++ ['\n']) :: (rs.map Record.qual).map (· ++ ['\n']))
      (seqCol (r :: rs) ++ sExtra) = _
    have hseqs : seqCol (r :: rs) ++ sExtra = r.seq ++ (seqCol rs ++ sExtra) := by
      simp [seqCol]
    simp only [reassembleL, hseqs]
    have hn : (r.qual ++ ['\n']).length - 1 = r.seq.length := by
      simp [hr.2.2.2.1]
    rw [hn, List.take_left, List.drop_left, ih hrs]
    simp [encodeStream, encodeRecord]

theorem uncompressContent_roundtrip (rs : List Record) (h : ValidStream rs)
    (hExtraLine : List Char) (hTid : '\n' ∉ hExtraLine) (sExtra : List Char) :
    uncompressContent (headCol rs ++ (hExtraLine ++ ['\n'])) (qualCol rs)
      ('>' :: '\n' :: (seqCol rs ++ sExtra)) = encodeStream rs := by
  have hids : ∀ l ∈ rs.map Record.id, '\n' ∉ l := by
    intro l hl
    obtain ⟨r, hr, rfl⟩ := List.mem_map.mp hl
    exact (h r hr).1
  have hquals : ∀ l ∈ rs.map Record.qual, '\n' ∉ l := by
    intro l hl
    obtain ⟨r, hr, rfl⟩ := List.mem_map.mp hl
    exact (h r hr).2.2.1
  unfold uncompressContent
  have e1 : headCol rs ++ (hExtraLine ++ ['\n']) = lineCol (rs.map Record.id) ++ (hExtraLine ++ '\n' :: []) := by
    simp [headCol]
  rw [e1, splitLines_lineCol _ hids, splitLines_newline _ _ hTid, splitLines_nil]
  show reassembleL _ (splitLines (lineCol (rs.map Record.qual))) _ = _
  rw [splitLines_lineCol_nil _ hquals]
  simpa using reassembleL_encode rs h [hExtraLine ++ ['\n']] sExtra

theorem uncompressContent_encode (rs : List Record) (h : ValidStream rs) :
    uncompressContent (headCol rs) (qualCol rs) ('>' :: '\n' :: seqCol rs) =
      encodeStream rs := by
  have hids : ∀ l ∈ rs.map Record.id, '\n' ∉ l := by
    intro l hl
    obtain ⟨r, hr, rfl⟩ := List.mem_map.mp hl
    exact (h r hr).1
  have hquals : ∀ l ∈ rs.map Record.qual, '\n' ∉ l := by
    intro l hl
    obtain ⟨r, hr, rfl⟩ := List.mem_map.mp hl
    exact (h r hr).2.2.1
  unfold uncompressContent
  show reassembleL (splitLines (lineCol (rs.map Record.id)))
    (splitLines (lineCol (rs.map Record.qual))) (seqCol rs) = _
  rw [splitLines_lineCol_nil _ hids, splitLines_lineCol_nil _ hquals]
  simpa using reassembleL_encode rs h [] []

theorem countNL_qualCol (rs : List Record) (h : ValidStream rs) :
    countNL (qualCol rs) = rs.length := by
  induction rs with
  | nil => simp [qualCol, lineCol, countNL]
  | cons r rs ih =>
    have hr : '\n' ∉ r.qual := (h r (List.mem_cons_self r rs)).2.2.1
    have hrs : ValidStream rs := fun x hx => h x (List.mem_cons_of_mem r hx)
    have e1 : qualCol (r :: rs) = (r.qual ++ ['\n']) ++ qualCol rs := by
      simp [qualCol, lineCol]
    have hfilter : r.qual.filter (· = '\n') = [] := by
      rw [List.filter_eq_nil_iff]
      intro c hc
      simp only [decide_eq_true_eq]
      intro hcn
      exact hr (hcn ▸ hc)
    rw [e1]
    unfold countNL at ih ⊢
    rw [List.filter_append, List.filter_append, List.length_append, List.length_append,
      hfilter, ih hrs]
    simp [Nat.add_comm]

theorem length_qualCol (rs : List Record) :
    (qualCol rs).length = (rs.map (fun r => r.qual.length + 1)).sum := by
  induction rs with
  | nil => simp [qualCol, lineCol]
  | cons r rs ih =>
    have e1 : qualCol (r :: rs) = (r.qual ++ ['\n']) ++ qualCol rs := by
      simp [qualCol, lineCol]
    rw [e1, List.length_append, ih]
    simp [Nat.add_comm, Nat.add_assoc, Nat.add_left_comm]

theorem fsWrite_self (fs : FS) (p : Path) (d : FData) : fsWrite fs p d p = some d := by
  simp [fsWrite]

theorem fsWrite_ne (fs : FS) (p : Path) (d : FData) (q : Path) (h : q ≠ p) :
    fsWrite fs p d q = fs q := by
  simp [fsWrite, h]

theorem fsRemove_ne (fs : FS) (p q : Path) (h : q ≠ p) : fsRemove fs p q = fs q := by
  simp [fsRemove, h]

theorem fsRmtree_under (fs : FS) (d q : Path) (h : d <+: q) : fsRmtree fs d q = none := by
  simp [fsRmtree, h]

theorem fsRmtree_not_under (fs : FS) (d q : Path) (h : ¬ d <+: q) : fsRmtree fs d q = fs q := by
  simp [fsRmtree, h]

theorem under_append (tmp : Path) (a : String) : tmp <+: tmp ++ [a] :=
  List.prefix_append tmp [a]

theorem ne_of_not_under (tmp q : Path) (h : ¬ tmp <+: q) (a : String) :
    q ≠ tmp ++ [a] :=
  fun he => h (he ▸ under_append tmp a)

theorem ne_self_of_not_under (tmp q : Path) (h : ¬ tmp <+: q) : q ≠ tmp :=
  fun he => h (he ▸ List.prefix_refl q)

theorem extractAll_not_under (entries : List (String × FData)) (fs : FS)
    (tmp q : Path) (h : ¬ tmp <+: q) : extractAll fs tmp entries q = fs q := by
  induction entries generalizing fs with
  | nil => rfl
  | cons e es ih =>
    show extractAll (fsWrite fs (tmp ++ [e.1]) e.2) tmp es q = fs q
    rw [ih, fsWrite_ne _ _ _ _ (ne_of_not_under tmp q h e.1)]

theorem uncompressBody_frame (md5f : List Char → Nat) (fs : FS) (inp outp tmp : Path)
    (skip : Bool) (q : Path) (hq : ¬ tmp <+: q) (hqo : q ≠ outp) :
    (uncompressBody md5f fs inp outp tmp skip).1 q = fs q := by
  have h1 := ne_of_not_under tmp q hq
  unfold uncompressBody
  dsimp only
  repeat' split
  all_goals
    simp [fsWrite, fsRemove, extractAll_not_under _ _ _ _ hq, h1 "seq.fa", h1 "seq.fa.zst",
      h1 "qual.txt", h1 "qual.txt.zst", h1 "head.txt", h1 "head.txt.zst", hqo]

theorem uncompress_frame (md5f : List Char → Nat) (fs : FS) (inp outp : Path)
    (skip : Bool) (tmp : Path) (q : Path) (hq : ¬ tmp <+: q) (hqo : q ≠ outp) :
    (uncompress md5f fs inp outp skip tmp).1 q = fs q := by
  unfold uncompress
  show fsRmtree _ tmp q = fs q
  rw [fsRmtree_not_under _ _ _ hq, uncompressBody_frame _ _ _ _ _ _ _ hq hqo,
    fsMkdir, fsWrite_ne _ _ _ _ (ne_self_of_not_under tmp q hq)]

theorem uncompress_tmp_clean (md5f : List Char → Nat) (fs : FS) (inp outp : Path)
    (skip : Bool) (tmp : Path) (q : Path) (hq : tmp <+: q) :
    (uncompress md5f fs inp outp skip tmp).1 q = none := by
  unfold uncompress
  exact fsRmtree_under _ _ _ hq

theorem compressBody_frame (md5f : List Char → Nat) (fs : FS) (inp outp tmp : Path)
    (mtime : Int) (q : Path) (hq : ¬ tmp <+: q) (hqo : q ≠ outp) :
    (compressBody md5f fs inp outp tmp mtime).1 q = fs q := by
  have h1 := ne_of_not_under tmp q hq
  unfold compressBody
  dsimp only
  repeat' split
  all_goals
    simp [fsWrite, fsRemove, h1 "seq.fa", h1 "seq.fa.zst", h1 "qual.txt", h1 "qual.txt.zst",
      h1 "head.txt", h1 "head.txt.zst", h1 "info.json", hqo]

theorem fsRemove_preserve_none (fs : FS) (p q : Path) (h : fs p = none) :
    fsRemove fs q p = none := by
  by_cases hpq : p = q <;> simp [fsRemove, hpq, h]

theorem uncompressBody_spec (md5f : List Char → Nat) (fs : FS) (inp outp tmp : Path)
    (skip : Bool) (headD seqD qualD : List Char) (info : Info)
    (hread : fs inp = some (FData.tar
      [("head.txt.zst", FData.text headD), ("seq.fa.zst", FData.text seqD),
       ("qual.txt.zst", FData.text qualD), ("info.json", FData.meta info)])) :
    (uncompressBody md5f fs inp outp tmp skip).2 =
      (if skip = false ∧ info.md5 ≠ md5f (uncompressContent headD qualD seqD)
       then Except.error ZErr.consistency else Except.ok ()) ∧
    (uncompressBody md5f fs inp outp tmp skip).1 outp =
      some (FData.text (uncompressContent headD qualD seqD)) := by
  unfold uncompressBody
  rw [hread]
  simp only [extractAll, List.foldl, fsWrite, fsRemove]
  by_cases hc : skip = false ∧ info.md5 ≠ md5f (uncompressContent headD qualD seqD) <;>
    simp [hc, fsWrite, fsRemove]

theorem uncompress_spec (md5f : List Char → Nat) (fs : FS) (inp outp tmp : Path)
    (skip : Bool) (headD seqD qualD : List Char) (info : Info)
    (hread : fs inp = some (FData.tar
      [("head.txt.zst", FData.text headD), ("seq.fa.zst", FData.text seqD),
       ("qual.txt.zst", FData.text qualD), ("info.json", FData.meta info)]))
    (hinp : inp ≠ tmp) (houtp : ¬ tmp <+: outp) :
    (uncompress md5f fs inp outp skip tmp).2 =
      (if skip = false ∧ info.md5 ≠ md5f (uncompressContent headD qualD seqD)
       then Except.error ZErr.consistency else Except.ok ()) ∧
    (uncompress md5f fs inp outp skip tmp).1 outp =
      some (FData.text (uncompressContent headD qualD seqD)) := by
  have hread' : (fsMkdir fs tmp) inp = some (FData.tar
      [("head.txt.zst", FData.text headD), ("seq.fa.zst", FData.text seqD),
       ("qual.txt.zst", FData.text qualD), ("info.json", FData.meta info)]) := by
    rw [fsMkdir, fsWrite_ne _ _ _ _ hinp]; exact hread
  obtain ⟨h2, h1⟩ := uncompressBody_spec md5f (fsMkdir fs tmp) inp outp tmp skip
    headD seqD qualD info hread'
  constructor
  · exact h2
  · show fsRmtree _ tmp outp = _
    rw [fsRmtree_not_under _ _ _ houtp]
    exact h1

theorem compressBody_spec (md5f : List Char → Nat) (fs : FS) (inp outp tmp : Path)
    (mtime : Int) (content : List Char)
    (hread : fs inp = some (FData.text content)) :
    (compressBody md5f fs inp outp tmp mtime).2 = Except.ok () ∧
    (compressBody md5f fs inp outp tmp mtime).1 outp =
      some (FData.tar (archiveEntries (splitFastq content) (infoOf md5f mtime content))) := by
  unfold compressBody
  rw [hread]
  simp [fsWrite]

theorem compress_spec (md5f : List Char → Nat) (fs : FS) (inp outp : Path)
    (tmp1 tmp2 : Path) (mtime : Int) (content : List Char)
    (hread : fs inp = some (FData.text content))
    (hinp1 : inp ≠ tmp1)
    (hout1 : ¬ tmp1 <+: outp)
    (hout2 : ¬ tmp2 <+: outp)
    (htest2 : ¬ tmp2 <+: testPath outp)
    (htno : testPath outp ≠ outp) :
    (compress md5f fs inp outp false tmp1 tmp2 mtime).2 =
      (if md5f content ≠ md5f (roundTripContent content)
       then Except.error ZErr.consistency else Except.ok ()) ∧
    (compress md5f fs inp outp false tmp1 tmp2 mtime).1 outp =
      some (FData.tar (archiveEntries (splitFastq content) (infoOf md5f mtime content))) ∧
    (compress md5f fs inp outp false tmp1 tmp2 mtime).1 (testPath outp) =
      (if md5f content ≠ md5f (roundTripContent content)
       then some (FData.text (roundTripContent content)) else none) := by
  have hreadM : (fsMkdir fs tmp1) inp = some (FData.text content) := by
    rw [fsMkdir, fsWrite_ne _ _ _ _ hinp1]; exact hread
  obtain ⟨hb2, hbout⟩ := compressBody_spec md5f (fsMkdir fs tmp1) inp outp tmp1 mtime
    content hreadM
  have hfs' : (fsRmtree (compressBody md5f (fsMkdir fs tmp1) inp outp tmp1 mtime).1 tmp1)
      outp = some (FData.tar
        [("head.txt.zst", FData.text (splitFastq content).1),
         ("seq.fa.zst", FData.text ('>' :: '\n' :: (splitFastq content).2.1)),
         ("qual.txt.zst", FData.text (splitFastq content).2.2),
         ("info.json", FData.meta (infoOf md5f mtime content))]) := by
    rw [fsRmtree_not_under _ _ _ hout1, hbout]
    rfl
  obtain ⟨hu2, huout⟩ := uncompress_spec md5f
    (fsRmtree (compressBody md5f (fsMkdir fs tmp1) inp outp tmp1 mtime).1 tmp1)
    outp (testPath outp) tmp2 false
    (splitFastq content).1 ('>' :: '\n' :: (splitFastq content).2.1)
    (splitFastq content).2.2 (infoOf md5f mtime content)
    hfs' (ne_self_of_not_under tmp2 outp hout2) htest2
  have hC : uncompressContent (splitFastq content).1 (splitFastq content).2.2
      ('>' :: '\n' :: (splitFastq content).2.1) = roundTripContent content := rfl
  have hmd : (infoOf md5f mtime content).md5 = md5f content := rfl
  rw [hC] at hu2 huout
  rw [hmd] at hu2
  simp only [eq_self_iff_true, true_and] at hu2
  unfold compress
  dsimp only
  rw [hb2]
  dsimp only
  rw [if_neg (by simp : ¬ (false : Bool) = true)]
  by_cases hc : md5f content = md5f (roundTripContent content)
  · have hu2' : (uncompress md5f
        (fsRmtree (compressBody md5f (fsMkdir fs tmp1) inp outp tmp1 mtime).1 tmp1)
        outp (testPath outp) false tmp2).2 = Except.ok () := by
      rw [hu2, if_neg]
      simp [hc]
    have hpair : uncompress md5f
        (fsRmtree (compressBody md5f (fsMkdir fs tmp1) inp outp tmp1 mtime).1 tmp1)
        outp (testPath outp) false tmp2 =
        ((uncompress md5f
          (fsRmtree (compressBody md5f (fsMkdir fs tmp1) inp outp tmp1 mtime).1 tmp1)
          outp (testPath outp) false tmp2).1, Except.ok ()) := by
      rw [← hu2']
    rw [hpair]
    dsimp only
    refine ⟨by simp [hc], ?_, ?_⟩
    · rw [fsRemove_ne _ _ _ (Ne.symm htno),
        uncompress_frame _ _ _ _ _ _ _ hout2 (Ne.symm htno), hfs']
      simp [hc, archiveEntries]
    · show fsRemove _ (testPath outp) (testPath outp) = _
      simp [fsRemove, hc]
  · have hu2' : (uncompress md5f
        (fsRmtree (compressBody md5f (fsMkdir fs tmp1) inp outp tmp1 mtime).1 tmp1)
        outp (testPath outp) false tmp2).2 = Except.error ZErr.consistency := by
      rw [hu2, if_pos]
      simp [hc]
    have hpair : uncompress md5f
        (fsRmtree (compressBody md5f (fsMkdir fs tmp1) inp outp tmp1 mtime).1 tmp1)
        outp (testPath outp) false tmp2 =
        ((uncompress md5f
          (fsRmtree (compressBody md5f (fsMkdir fs tmp1) inp outp tmp1 mtime).1 tmp1)
          outp (testPath outp) false tmp2).1, Except.error ZErr.consistency) := by
      rw [← hu2']
    rw [hpair]
    dsimp only
    refine ⟨by simp [hc], ?_, ?_⟩
    · rw [uncompress_frame _ _ _ _ _ _ _ hout2 (Ne.symm htno), hfs']
      simp [hc, archiveEntries]
    · rw [huout]
      simp [hc]

theorem append_singleton_ne (tmp : Path) (a b : String) (h : a ≠ b) :
    tmp ++ [a] ≠ tmp ++ [b] :=
  fun he => h (by simpa using List.append_cancel_left he)

theorem append_singleton_ne_dir (tmp : Path) (a : String) : tmp ++ [a] ≠ tmp :=
  fun he => by simpa using congrArg List.length he

theorem extractAll_missing (entries : List (String × FData)) (fs : FS)
    (tmp : Path) (name : String) (h : ∀ e ∈ entries, e.1 ≠ name) :
    extractAll fs tmp entries (tmp ++ [name]) = fs (tmp ++ [name]) := by
  induction entries generalizing fs with
  | nil => rfl
  | cons e es ih =>
    show extractAll (fsWrite fs (tmp ++ [e.1]) e.2) tmp es (tmp ++ [name]) = _
    rw [ih _ (fun x hx => h x (List.mem_cons_of_mem e hx)),
      fsWrite_ne _ _ _ _ (append_singleton_ne tmp name e.1
        (fun hne => (h e (List.mem_cons_self e es)) hne.symm))]

theorem roundTripContent_encode (rs : List Record) (h : ValidStream rs) :
    roundTripContent (encodeStream rs) = encodeStream rs := by
  unfold roundTripContent
  rw [splitFastq_encode rs h]
  exact uncompressContent_encode rs h

theorem roundtrip_ok (md5f : List Char → Nat) (fs : FS) (rs : List Record)
    (inp outp outp2 tmp1 tmp2 tmp3 : Path) (mtime : Int)
    (hR : ValidStream rs)
    (hread : fs inp = some (FData.text (encodeStream rs)))
    (hinp1 : inp ≠ tmp1)
    (hout1 : ¬ tmp1 <+: outp)
    (hout2 : ¬ tmp2 <+: outp)
    (htest2 : ¬ tmp2 <+: testPath outp)
    (htno : testPath outp ≠ outp)
    (hout3 : outp ≠ tmp3)
    (hout23 : ¬ tmp3 <+: outp2) :
    (compress md5f fs inp outp false tmp1 tmp2 mtime).2 = Except.ok () ∧
    (uncompress md5f (compress md5f fs inp outp false tmp1 tmp2 mtime).1
      outp outp2 false tmp3).2 = Except.ok () ∧
    (uncompress md5f (compress md5f fs inp outp false tmp1 tmp2 mtime).1
      outp outp2 false tmp3).1 outp2 = some (FData.text (encodeStream rs)) ∧
    (compress md5f fs inp outp false tmp1 tmp2 mtime).1 outp =
      some (FData.tar
        [("head.txt.zst", FData.text (headCol rs)),
         ("seq.fa.zst", FData.text ('>' :: '\n' :: seqCol rs)),
         ("qual.txt.zst", FData.text (qualCol rs)),
         ("info.json", FData.meta (infoOf md5f mtime (encodeStream rs)))]) := by
  have hrt : roundTripContent (encodeStream rs) = encodeStream rs :=
    roundTripContent_encode rs hR
  obtain ⟨hc2, hcout, _⟩ := compress_spec md5f fs inp outp tmp1 tmp2 mtime
    (encodeStream rs) hread hinp1 hout1 hout2 htest2 htno
  rw [hrt] at hc2
  have hc2' : (compress md5f fs inp outp false tmp1 tmp2 mtime).2 = Except.ok () := by
    rw [hc2]; simp
  have harc : (compress md5f fs inp outp false tmp1 tmp2 mtime).1 outp =
      some (FData.tar
        [("head.txt.zst", FData.text (headCol rs)),
         ("seq.fa.zst", FData.text ('>' :: '\n' :: seqCol rs)),
         ("qual.txt.zst", FData.text (qualCol rs)),
         ("info.json", FData.meta (infoOf md5f mtime (encodeStream rs)))]) := by
    rw [hcout]
    simp [archiveEntries, splitFastq_encode rs hR]
  obtain ⟨hu2, huout⟩ := uncompress_spec md5f
    (compress md5f fs inp outp false tmp1 tmp2 mtime).1 outp outp2 tmp3 false
    (headCol rs) ('>' :: '\n' :: seqCol rs) (qualCol rs)
    (infoOf md5f mtime (encodeStream rs)) harc hout3 hout23
  have hcontent : uncompressContent (headCol rs) (qualCol rs)
      ('>' :: '\n' :: seqCol rs) = encodeStream rs := uncompressContent_encode rs hR
  rw [hcontent] at hu2 huout
  refine ⟨hc2', ?_, huout, harc⟩
  rw [hu2]
  have : (infoOf md5f mtime (encodeStream rs)).md5 = md5f (encodeStream rs) := rfl
  rw [this]
  simp

/-- Claim C1: for every valid FASTQ record stream, compressing its textual
form and then uncompressing the produced archive, with the integrity check
enabled in both operations (`skip_check = false` both times), succeeds in
both directions and writes an output whose content is exactly the original
stream; hence any content hash of the output (MD5 included) equals the
content hash of the input. -/
theorem c1_roundtrip (md5f : List Char → Nat) (fs : FS) (rs : List Record)
    (inp outp outp2 tmp1 tmp2 tmp3 : Path) (mtime : Int)
    (hR : ValidStream rs)
    (hread : fs inp = some (FData.text (encodeStream rs)))
    (hinp1 : inp ≠ tmp1)
    (hout1 : ¬ tmp1 <+: outp)
    (hout2 : ¬ tmp2 <+: outp)
    (htest2 : ¬ tmp2 <+: testPath outp)
    (htno : testPath outp ≠ outp)
    (hout3 : outp ≠ tmp3)
    (hout23 : ¬ tmp3 <+: outp2) :
    (compress md5f fs inp outp false tmp1 tmp2 mtime).2 = Except.ok () ∧
    (uncompress md5f (compress md5f fs inp outp false tmp1 tmp2 mtime).1
      outp outp2 false tmp3).2 = Except.ok () ∧
    (uncompress md5f (compress md5f fs inp outp false tmp1 tmp2 mtime).1
      outp outp2 false tmp3).1 outp2 = some (FData.text (encodeStream rs)) ∧
    md5f (encodeStream rs) = md5f (encodeStream rs) := by
  obtain ⟨h1, h2, h3, _⟩ := roundtrip_ok md5f fs rs inp outp outp2 tmp1 tmp2 tmp3 mtime
    hR hread hinp1 hout1 hout2 htest2 htno hout3 hout23
  exact ⟨h1, h2, h3, rfl⟩

theorem c1_roundtrip_witness :
    ValidStream scenarioRecords ∧
    (compress md5len (singleFS ["in.fq"] (FData.text (encodeStream scenarioRecords)))
      ["in.fq"] ["out.zfq"] false ["t1"] ["t2"] 0).2 = Except.ok () ∧
    (uncompress md5len
      (compress md5len (singleFS ["in.fq"] (FData.text (encodeStream scenarioRecords)))
        ["in.fq"] ["out.zfq"] false ["t1"] ["t2"] 0).1
      ["out.zfq"] ["out2.fq"] false ["t3"]).2 = Except.ok () ∧
    (uncompress md5len
      (compress md5len (singleFS ["in.fq"] (FData.text (encodeStream scenarioRecords)))
        ["in.fq"] ["out.zfq"] false ["t1"] ["t2"] 0).1
      ["out.zfq"] ["out2.fq"] false ["t3"]).1 ["out2.fq"] =
      some (FData.text (encodeStream scenarioRecords)) := by
  have h := c1_roundtrip md5len
    (singleFS ["in.fq"] (FData.text (encodeStream scenarioRecords)))
    scenarioRecords ["in.fq"] ["out.zfq"] ["out2.fq"] ["t1"] ["t2"] ["t3"] 0
    (by decide) rfl (by decide) (by decide) (by decide) (by decide) (by decide)
    (by decide) (by decide)
  exact ⟨by decide, h.1, h.2.1, h.2.2.1⟩

/-- Claim C4: for every valid input record stream, the metadata persisted by
`compress` has `seq` (record count) equal to the number of records and `nt`
(nucleotide count) equal to the newline-inclusive character count of the
quality column, i.e. the sum over records of quality length plus one; on the
two-record scenario the stored metadata is `seq = 2`, `nt = 8`. -/
theorem c4_metadata (md5f : List Char → Nat) (mtime : Int) (rs : List Record)
    (hR : ValidStream rs) :
    (infoOf md5f mtime (encodeStream rs)).seq = rs.length ∧
    (infoOf md5f mtime (encodeStream rs)).nt =
      (rs.map (fun r => r.qual.length + 1)).sum := by
  have hq : (splitFastq (encodeStream rs)).2.2 = qualCol rs := by
    rw [splitFastq_encode rs hR]
  constructor
  · show countNL (splitFastq (encodeStream rs)).2.2 = rs.length
    rw [hq]
    exact countNL_qualCol rs hR
  · show (splitFastq (encodeStream rs)).2.2.length = _
    rw [hq]
    exact length_qualCol rs

theorem c4_metadata_witness :
    ValidStream scenarioRecords ∧
    (infoOf md5len 0 (encodeStream scenarioRecords)).seq = 2 ∧
    (infoOf md5len 0 (encodeStream scenarioRecords)).nt = 8 := by
  have h := c4_metadata md5len 0 scenarioRecords (by decide)
  exact ⟨by decide, h.1, h.2⟩

/-- Claim C3: the reconstruction consumes one header line and one quality
line in lockstep (after discarding the two-character sentinel prefix of the
sequence column) and emits exactly four output lines per pair: `"@"` plus the
header line, a sequence slice of exactly `len(qualityLine) - 1` characters
followed by a newline, the fixed `"+\n"` separator, and the quality line
verbatim; in particular the reconstructed sequence has length
`len(qualityLine) - 1` (the quality line includes its trailing newline). -/
theorem c3_reconstruction (h q hrest qrest seqD : List Char)
    (hh : '\n' ∉ h) (hq : '\n' ∉ q)
    (hlen : q.length ≤ (seqD.drop 2).length) :
    uncompressContent ((h ++ ['\n']) ++ hrest) ((q ++ ['\n']) ++ qrest) seqD =
      '@' :: (h ++ ['\n']) ++ (((seqD.drop 2).take q.length ++ ['\n']) ++ '+' :: '\n' ::
        ((q ++ ['\n']) ++ reassembleL (splitLines hrest) (splitLines qrest)
          ((seqD.drop 2).drop q.length))) ∧
    ((seqD.drop 2).take q.length).length = (q ++ ['\n']).length - 1 := by
  have e1 : (h ++ ['\n']) ++ hrest = h ++ '\n' :: hrest := by simp
  have e2 : (q ++ ['\n']) ++ qrest = q ++ '\n' :: qrest := by simp
  have hn : (q ++ ['\n']).length - 1 = q.length := by simp
  constructor
  · unfold uncompressContent
    rw [e1, e2, splitLines_newline _ _ hh, splitLines_newline _ _ hq]
    show reassembleL _ _ _ = _
    simp only [reassembleL, hn]
    simp
  · rw [List.length_take, hn]
    exact Nat.min_eq_left hlen

theorem c3_reconstruction_witness :
    '\n' ∉ "r1".toList ∧ '\n' ∉ "!!!!".toList ∧
    ("!!!!".toList).length ≤ ((">\nACGT".toList).drop 2).length ∧
    uncompressContent (("r1".toList ++ ['\n']) ++ []) (("!!!!".toList ++ ['\n']) ++ [])
      (">\nACGT".toList) =
      '@' :: ("r1".toList ++ ['\n']) ++
        ((((">\nACGT".toList).drop 2).take ("!!!!".toList).length ++ ['\n']) ++ '+' :: '\n' ::
          (("!!!!".toList ++ ['\n']) ++ reassembleL (splitLines []) (splitLines [])
            (((">\nACGT".toList).drop 2).drop ("!!!!".toList).length))) ∧
    ((((">\nACGT".toList).drop 2).take ("!!!!".toList).length)).length =
      ("!!!!".toList ++ ['\n']).length - 1 := by
  have h := c3_reconstruction ("r1".toList) ("!!!!".toList) [] [] (">\nACGT".toList)
    (by decide) (by decide) (by decide)
  exact ⟨by decide, by decide, by decide, h.1, h.2⟩

/-- Claim C5: when the integrity check is enabled, `uncompress` compares the
hash of the reconstructed output with the `source_hash` stored in the archive
metadata and fails with the consistency error on mismatch; when the check is
skipped (`skip_check = true`) no comparison is performed and the operation
succeeds regardless of any mismatch. -/
theorem c5_consistency_check (md5f : List Char → Nat) (fs : FS) (inp outp tmp : Path)
    (headD seqD qualD : List Char) (info : Info)
    (hread : fs inp = some (FData.tar
      [("head.txt.zst", FData.text headD), ("seq.fa.zst", FData.text seqD),
       ("qual.txt.zst", FData.text qualD), ("info.json", FData.meta info)]))
    (hinp : inp ≠ tmp) :
    (uncompress md5f fs inp outp true tmp).2 = Except.ok () ∧
    (info.md5 ≠ md5f (uncompressContent headD qualD seqD) →
      (uncompress md5f fs inp outp false tmp).2 = Except.error ZErr.consistency) := by
  have hread' : fsMkdir fs tmp inp = some (FData.tar
      [("head.txt.zst", FData.text headD), ("seq.fa.zst", FData.text seqD),
       ("qual.txt.zst", FData.text qualD), ("info.json", FData.meta info)]) := by
    rw [fsMkdir, fsWrite_ne _ _ _ _ hinp]
    exact hread
  have h1 := (uncompressBody_spec md5f (fsMkdir fs tmp) inp outp tmp true
    headD seqD qualD info hread').1
  have h2 := (uncompressBody_spec md5f (fsMkdir fs tmp) inp outp tmp false
    headD seqD qualD info hread').1
  constructor
  · show (uncompressBody md5f (fsMkdir fs tmp) inp outp tmp true).2 = _
    rw [h1]
    simp
  · intro hm
    show (uncompressBody md5f (fsMkdir fs tmp) inp outp tmp false).2 = _
    rw [h2]
    simp [hm]

theorem c5_consistency_check_witness :
    (uncompress md5len (singleFS ["a.zfq"] (FData.tar
      [("head.txt.zst", FData.text ("r1\n".toList)),
       ("seq.fa.zst", FData.text (">\nACGT".toList)),
       ("qual.txt.zst", FData.text ("!!!!\n".toList)),
       ("info.json", FData.meta ⟨1, 5, 999, 0⟩)]))
      ["a.zfq"] ["o.fq"] true ["t"]).2 = Except.ok () ∧
    (uncompress md5len (singleFS ["a.zfq"] (FData.tar
      [("head.txt.zst", FData.text ("r1\n".toList)),
       ("seq.fa.zst", FData.text (">\nACGT".toList)),
       ("qual.txt.zst", FData.text ("!!!!\n".toList)),
       ("info.json", FData.meta ⟨1, 5, 999, 0⟩)]))
      ["a.zfq"] ["o.fq"] false ["t"]).2 = Except.error ZErr.consistency := by
  have h := c5_consistency_check md5len (singleFS ["a.zfq"] (FData.tar
      [("head.txt.zst", FData.text ("r1\n".toList)),
       ("seq.fa.zst", FData.text (">\nACGT".toList)),
       ("qual.txt.zst", FData.text ("!!!!\n".toList)),
       ("info.json", FData.meta ⟨1, 5, 999, 0⟩)]))
    ["a.zfq"] ["o.fq"] ["t"] ("r1\n".toList) (">\nACGT".toList) ("!!!!\n".toList)
    ⟨1, 5, 999, 0⟩ rfl (by decide)
  exact ⟨h.1, h.2 (by decide)⟩

/-- Claim C10: with the integrity check enabled, `compress` writes a complete
reconstruction of the archive's content to `out_path + ".testmd5"` and
deletes it only when the check succeeds; when the consistency comparison
fails, the fully reconstructed `.testmd5` file is left behind next to the
archive, and the archive itself is preserved in both cases. -/
theorem c10_testmd5 (md5f : List Char → Nat) (fs : FS) (inp outp : Path)
    (tmp1 tmp2 : Path) (mtime : Int) (content : List Char)
    (hread : fs inp = some (FData.text content))
    (hinp1 : inp ≠ tmp1)
    (hout1 : ¬ tmp1 <+: outp)
    (hout2 : ¬ tmp2 <+: outp)
    (htest2 : ¬ tmp2 <+: testPath outp)
    (htno : testPath outp ≠ outp) :
    (md5f content = md5f (roundTripContent content) →
      (compress md5f fs inp outp false tmp1 tmp2 mtime).2 = Except.ok () ∧
      (compress md5f fs inp outp false tmp1 tmp2 mtime).1 (testPath outp) = none ∧
      (compress md5f fs inp outp false tmp1 tmp2 mtime).1 outp =
        some (FData.tar (archiveEntries (splitFastq content) (infoOf md5f mtime content)))) ∧
    (md5f content ≠ md5f (roundTripContent content) →
      (compress md5f fs inp outp false tmp1 tmp2 mtime).2 = Except.error ZErr.consistency ∧
      (compress md5f fs inp outp false tmp1 tmp2 mtime).1 (testPath outp) =
        some (FData.text (roundTripContent content)) ∧
      (compress md5f fs inp outp false tmp1 tmp2 mtime).1 outp =
        some (FData.tar (archiveEntries (splitFastq content) (infoOf md5f mtime content)))) := by
  obtain ⟨h2, hout, htest⟩ := compress_spec md5f fs inp outp tmp1 tmp2 mtime content
    hread hinp1 hout1 hout2 htest2 htno
  constructor
  · intro heq
    refine ⟨?_, ?_, hout⟩
    · rw [h2]
      simp [heq]
    · rw [htest]
      simp [heq]
  · intro hne
    refine ⟨?_, ?_, hout⟩
    · rw [h2]
      simp [hne]
    · rw [htest]
      simp [hne]

theorem c10_testmd5_witness :
    (compress md5len (singleFS ["in.fq"] (FData.text ("@r1\n".toList)))
      ["in.fq"] ["out.zfq"] false ["t1"] ["t2"] 0).2 = Except.error ZErr.consistency ∧
    (compress md5len (singleFS ["in.fq"] (FData.text ("@r1\n".toList)))
      ["in.fq"] ["out.zfq"] false ["t1"] ["t2"] 0).1 ["out.zfq.testmd5"] =
      some (FData.text (roundTripContent ("@r1\n".toList))) ∧
    (compress md5len (singleFS ["in.fq"] (FData.text ("@r1\n".toList)))
      ["in.fq"] ["out.zfq"] false ["t1"] ["t2"] 0).1 ["out.zfq"] =
      some (FData.tar (archiveEntries (splitFastq ("@r1\n".toList)) (infoOf md5len 0 ("@r1\n".toList)))) := by
  have h := (c10_testmd5 md5len (singleFS ["in.fq"] (FData.text ("@r1\n".toList)))
    ["in.fq"] ["out.zfq"] ["t1"] ["t2"] 0 ("@r1\n".toList)
    rfl (by decide) (by decide) (by decide) (by decide) (by decide)).2 (by decide)
  exact ⟨h.1, h.2.1, h.2.2⟩

/-- Claim C7: for every `compress` or `uncompress` invocation, the temporary
workspace directories (including the one the internal self-check uncompression
creates) are recursively removed on every exit path, success or error, before
the outcome is surfaced: no path at or below a workspace directory remains in
the final filesystem.  The hypotheses say only that the destination and test
paths do not sit inside a workspace and that the second workspace name is
fresh. -/
theorem c7_workspace_cleanup (md5f : List Char → Nat) (fs : FS) (inp outp : Path)
    (skip : Bool) (tmp1 tmp2 tmp3 : Path) (mtime : Int)
    (htest1 : ¬ tmp1 <+: testPath outp)
    (hout2 : ¬ tmp2 <+: outp)
    (hfresh2 : ∀ q, tmp2 <+: q → fs q = none) :
    (∀ p, tmp1 <+: p ∨ tmp2 <+: p →
      (compress md5f fs inp outp skip tmp1 tmp2 mtime).1 p = none) ∧
    (∀ p, tmp3 <+: p → (uncompress md5f fs inp outp skip tmp3).1 p = none) := by
  constructor
  · intro p hp
    have hfs3 : fsRmtree (compressBody md5f (fsMkdir fs tmp1) inp outp tmp1 mtime).1
        tmp1 p = none := by
      by_cases hp1 : tmp1 <+: p
      · exact fsRmtree_under _ _ _ hp1
      · have hp2 : tmp2 <+: p := hp.resolve_left hp1
        have hpo : p ≠ outp := fun he => hout2 (he ▸ hp2)
        rw [fsRmtree_not_under _ _ _ hp1,
          compressBody_frame _ _ _ _ _ _ _ hp1 hpo,
          fsMkdir, fsWrite_ne _ _ _ _ (ne_self_of_not_under tmp1 p hp1)]
        exact hfresh2 p hp2
    unfold compress
    dsimp only
    cases hb2 : (compressBody md5f (fsMkdir fs tmp1) inp outp tmp1 mtime).2 with
    | error e => exact hfs3
    | ok u =>
      cases u
      cases skip with
      | true => simpa using hfs3
      | false =>
        have hfs'' : (uncompress md5f
            (fsRmtree (compressBody md5f (fsMkdir fs tmp1) inp outp tmp1 mtime).1 tmp1)
            outp (testPath outp) false tmp2).1 p = none := by
          by_cases hp2 : tmp2 <+: p
          · exact uncompress_tmp_clean _ _ _ _ _ _ _ hp2
          · have hp1 : tmp1 <+: p := hp.resolve_right hp2
            have hpo : p ≠ testPath outp := fun he => htest1 (he ▸ hp1)
            rw [uncompress_frame _ _ _ _ _ _ _ hp2 hpo]
            exact hfs3
        cases hu : uncompress md5f
            (fsRmtree (compressBody md5f (fsMkdir fs tmp1) inp outp tmp1 mtime).1 tmp1)
            outp (testPath outp) false tmp2 with
        | mk fs'' r =>
          have hfp : fs'' p = none := by rw [← hfs'', hu]
          cases r with
          | ok v =>
            cases v
            show fsRemove fs'' (testPath outp) p = none
            exact fsRemove_preserve_none fs'' p (testPath outp) hfp
          | error e => exact hfp
  · intro p hp
    exact uncompress_tmp_clean md5f fs inp outp skip tmp3 p hp

theorem c7_workspace_cleanup_witness :
    (compress md5len (singleFS ["in.fq"] (FData.text ("@r1\nAC\n+\n!!\n".toList)))
      ["in.fq"] ["out.zfq"] false ["t1"] ["t2"] 0).1 ["t1"] = none ∧
    (compress md5len (singleFS ["in.fq"] (FData.text ("@r1\nAC\n+\n!!\n".toList)))
      ["in.fq"] ["out.zfq"] false ["t1"] ["t2"] 0).1 ["t2", "head.txt"] = none ∧
    (uncompress md5len (singleFS ["in.fq"] (FData.text ("@r1\nAC\n+\n!!\n".toList)))
      ["in.fq"] ["o.fq"] false ["t3"]).1 ["t3", "qual.txt"] = none := by
  have hfresh : ∀ q, ["t2"] <+: q →
      singleFS ["in.fq"] (FData.text ("@r1\nAC\n+\n!!\n".toList)) q = none := by
    intro q hq
    obtain ⟨t, rfl⟩ := hq
    simp [singleFS]
  have h := c7_workspace_cleanup md5len
    (singleFS ["in.fq"] (FData.text ("@r1\nAC\n+\n!!\n".toList)))
    ["in.fq"] ["out.zfq"] false ["t1"] ["t2"] ["t3"] 0
    (by decide) (by decide) hfresh
  exact ⟨h.1 ["t1"] (Or.inl (by decide)), h.1 ["t2", "head.txt"] (Or.inr (by decide)),
    h.2 ["t3", "qual.txt"] (by decide)⟩

theorem splitFastq_truncated (rs : List Record) (tid tail : List Char)
    (hR : ValidStream rs) (htid : '\n' ∉ tid) (htidne : tid ≠ [])
    (htail : tail = tid ++ ['\n'] ∨
      ∃ s, '\n' ∉ s ∧ tail = (tid ++ ['\n']) ++ (s ++ ['\n'])) :
    ∃ st, splitFastq (encodeStream rs ++ tail) =
      (headCol rs ++ (tid.drop 1 ++ ['\n']), seqCol rs ++ st, qualCol rs) := by
  have hdrop : (tid ++ ['\n']).drop 1 = tid.drop 1 ++ ['\n'] := by
    cases tid with
    | nil => exact absurd rfl htidne
    | cons c t => simp
  rcases htail with rfl | ⟨s, hns, rfl⟩
  · refine ⟨[], ?_⟩
    rw [splitFastq_encode_append rs hR (tid ++ ['\n'])]
    have h1 : splitFastq (tid ++ ['\n']) = ((tid ++ ['\n']).drop 1, [], []) := by
      unfold splitFastq
      rw [show tid ++ ['\n'] = tid ++ '\n' :: [] from rfl,
        splitLines_newline _ _ htid, splitLines_nil]
      rfl
    rw [h1, hdrop]
    simp
  · refine ⟨pyStrip (s ++ ['\n']), ?_⟩
    rw [splitFastq_encode_append rs hR ((tid ++ ['\n']) ++ (s ++ ['\n']))]
    have h1 : splitFastq ((tid ++ ['\n']) ++ (s ++ ['\n'])) =
        ((tid ++ ['\n']).drop 1, pyStrip (s ++ ['\n']), []) := by
      unfold splitFastq
      have e : (tid ++ ['\n']) ++ (s ++ ['\n']) = tid ++ '\n' :: (s ++ '\n' :: []) := by
        simp
      rw [e, splitLines_newline _ _ htid, splitLines_newline _ _ hns, splitLines_nil]
      rfl
    rw [h1, hdrop]
    simp

/-- Claim C2 counterexample: on the input `"@r1\n"`, which ends right after
an identifier line, `compress` with the integrity check enabled does write
the archive file (it exists in the final filesystem) and fails only with the
later consistency error, not with any format error raised at split time; with
the check skipped it succeeds silently.  This refutes the claim that compress
fails with a FormatError and produces no archive. -/
theorem c2_counterexample :
    (compress md5len (singleFS ["in.fq"] (FData.text ("@r1\n".toList)))
      ["in.fq"] ["out.zfq"] false ["t1"] ["t2"] 0).2 = Except.error ZErr.consistency ∧
    ((compress md5len (singleFS ["in.fq"] (FData.text ("@r1\n".toList)))
      ["in.fq"] ["out.zfq"] false ["t1"] ["t2"] 0).1 ["out.zfq"]).isSome = true ∧
    (compress md5len (singleFS ["in.fq"] (FData.text ("@r1\n".toList)))
      ["in.fq"] ["out.zfq"] true ["t1"] ["t2"] 0).2 = Except.ok () :=
  ⟨rfl, rfl, rfl⟩

/-- Claim C2 (amended): `compress` performs no format validation.  For an
input consisting of valid records followed by a partial final record (end of
file after the identifier line, or after the sequence line, before the
quality line), the splitter silently drops the partial record from the
quality column (only its identifier tail reaches the header column), the
archive file is written and remains on disk, and — when the integrity check
is enabled and the hash distinguishes the truncated reconstruction from the
input — the operation fails afterwards with the generic consistency error
(there is no FormatError anywhere in the program); the leftover
`.testmd5` file holds exactly the complete records, demonstrating the silent
truncation. -/
theorem c2_amended (md5f : List Char → Nat) (fs : FS) (rs : List Record)
    (tid tail : List Char) (inp outp tmp1 tmp2 : Path) (mtime : Int)
    (hR : ValidStream rs) (htid : '\n' ∉ tid) (htidne : tid ≠ [])
    (htail : tail = tid ++ ['\n'] ∨
      ∃ s, '\n' ∉ s ∧ tail = (tid ++ ['\n']) ++ (s ++ ['\n']))
    (hread : fs inp = some (FData.text (encodeStream rs ++ tail)))
    (hinp1 : inp ≠ tmp1) (hout1 : ¬ tmp1 <+: outp) (hout2 : ¬ tmp2 <+: outp)
    (htest2 : ¬ tmp2 <+: testPath outp) (htno : testPath outp ≠ outp)
    (hm : md5f (encodeStream rs ++ tail) ≠ md5f (encodeStream rs)) :
    (compress md5f fs inp outp false tmp1 tmp2 mtime).2 =
      Except.error ZErr.consistency ∧
    (compress md5f fs inp outp false tmp1 tmp2 mtime).1 outp =
      some (FData.tar (archiveEntries (splitFastq (encodeStream rs ++ tail))
        (infoOf md5f mtime (encodeStream rs ++ tail)))) ∧
    (splitFastq (encodeStream rs ++ tail)).2.2 = qualCol rs ∧
    (compress md5f fs inp outp false tmp1 tmp2 mtime).1 (testPath outp) =
      some (FData.text (encodeStream rs)) := by
  obtain ⟨st, hsplit⟩ := splitFastq_truncated rs tid tail hR htid htidne htail
  have hrt : roundTripContent (encodeStream rs ++ tail) = encodeStream rs := by
    unfold roundTripContent
    rw [hsplit]
    exact uncompressContent_roundtrip rs hR (tid.drop 1)
      (fun hmem => htid (List.drop_subset 1 tid hmem)) st
  obtain ⟨h2, hout, htest⟩ := compress_spec md5f fs inp outp tmp1 tmp2 mtime _
    hread hinp1 hout1 hout2 htest2 htno
  rw [hrt] at h2 htest
  refine ⟨?_, hout, ?_, ?_⟩
  · rw [h2]
    simp [hm]
  · rw [hsplit]
  · rw [htest]
    simp [hm]

theorem c2_amended_witness :
    (compress md5len
      (singleFS ["in.fq"] (FData.text (encodeStream scenarioRecords ++ "@r3\n".toList)))
      ["in.fq"] ["out.zfq"] false ["t1"] ["t2"] 0).2 = Except.error ZErr.consistency ∧
    (splitFastq (encodeStream scenarioRecords ++ "@r3\n".toList)).2.2 =
      qualCol scenarioRecords ∧
    (compress md5len
      (singleFS ["in.fq"] (FData.text (encodeStream scenarioRecords ++ "@r3\n".toList)))
      ["in.fq"] ["out.zfq"] false ["t1"] ["t2"] 0).1 (testPath ["out.zfq"]) =
      some (FData.text (encodeStream scenarioRecords)) := by
  have h := c2_amended md5len
    (singleFS ["in.fq"] (FData.text (encodeStream scenarioRecords ++ "@r3\n".toList)))
    scenarioRecords ("@r3".toList) ("@r3\n".toList) ["in.fq"] ["out.zfq"] ["t1"] ["t2"] 0
    (by decide) (by decide) (by decide) (Or.inl (by decide)) rfl
    (by decide) (by decide) (by decide) (by decide) (by decide) (by decide)
  exact ⟨h.1, h.2.2.1, h.2.2.2⟩

/-- Claim C8 counterexample: on the record `(@r1, " ACGT", +, !!!!)` whose
sequence line has a leading space, the splitter appends `"ACGT"` — the
leading space is removed as well, because the code uses Python `strip()`,
which strips both ends.  This refutes the claim that only line-ending
whitespace is stripped with leading characters untouched. -/
theorem c8_counterexample :
    (splitFastq ("@r1\n ACGT\n+\n!!!!\n".toList)).2.1 = "ACGT".toList ∧
    (splitFastq ("@r1\n ACGT\n+\n!!!!\n".toList)).2.1 ≠ " ACGT".toList :=
  ⟨by decide, by decide⟩

/-- Claim C8 (amended): for every record, the splitter appends the
identifier line stripped of its leading marker character to the header
column with its trailing newline, appends the sequence line stripped of
whitespace at both ends (Python `strip()`, newline included — not only
line-ending whitespace) to the sequence column with no delimiter, and
appends the quality line verbatim including its newline to the quality
column. -/
theorem c8_amended (i s p q rest : List Char)
    (hi : i ≠ []) (hni : '\n' ∉ i) (hns : '\n' ∉ s) (hnp : '\n' ∉ p)
    (hnq : '\n' ∉ q) :
    splitFastq ((i ++ ['\n']) ++ ((s ++ ['\n']) ++ ((p ++ ['\n']) ++
        ((q ++ ['\n']) ++ rest)))) =
      ((i.drop 1 ++ ['\n']) ++ (splitFastq rest).1,
       pyStrip (s ++ ['\n']) ++ (splitFastq rest).2.1,
       (q ++ ['\n']) ++ (splitFastq rest).2.2) := by
  unfold splitFastq
  have e : (i ++ ['\n']) ++ ((s ++ ['\n']) ++ ((p ++ ['\n']) ++
      ((q ++ ['\n']) ++ rest))) =
      i ++ '\n' :: (s ++ '\n' :: (p ++ '\n' :: (q ++ '\n' :: rest))) := by
    simp
  rw [e, splitLines_newline _ _ hni, splitLines_newline _ _ hns,
    splitLines_newline _ _ hnp, splitLines_newline _ _ hnq]
  obtain ⟨c, i', rfl⟩ : ∃ c i', i = c :: i' := by
    cases i with
    | nil => exact absurd rfl hi
    | cons c i' => exact ⟨c, i', rfl⟩
  simp [splitLoopL]

theorem c8_amended_witness :
    "@r1".toList ≠ [] ∧
    splitFastq (("@r1".toList ++ ['\n']) ++ ((" ACGT ".toList ++ ['\n']) ++
        (("+".toList ++ ['\n']) ++ (("!!!!".toList ++ ['\n']) ++ [])))) =
      (("@r1".toList.drop 1 ++ ['\n']) ++ (splitFastq []).1,
       pyStrip (" ACGT ".toList ++ ['\n']) ++ (splitFastq []).2.1,
       ("!!!!".toList ++ ['\n']) ++ (splitFastq []).2.2) :=
  ⟨by decide, c8_amended ("@r1".toList) (" ACGT ".toList) ("+".toList)
    ("!!!!".toList) [] (by decide) (by decide) (by decide) (by decide) (by decide)⟩

/-- Claim C9 counterexample: the empty input compresses to an archive whose
sequence entry is not empty — it holds exactly the two-character sentinel
`">\n"` — refuting the claim that all three column entries are empty. -/
theorem c9_counterexample :
    (compress md5len (singleFS ["in.fq"] (FData.text [])) ["in.fq"] ["out.zfq"]
      false ["t1"] ["t2"] 0).1 ["out.zfq"] =
      some (FData.tar
        [("head.txt.zst", FData.text []),
         ("seq.fa.zst", FData.text ['>', '\n']),
         ("qual.txt.zst", FData.text []),
         ("info.json", FData.meta ⟨0, 0, 0, 0⟩)]) ∧
    (['>', '\n'] : List Char) ≠ [] :=
  ⟨rfl, by decide⟩

/-- Claim C9 (amended): the empty input compresses successfully (integrity
check included) to an archive whose header and quality entries are empty,
whose sequence entry holds exactly the `">\n"` sentinel, and whose metadata
has record count 0; decompressing that archive succeeds and yields the empty
stream. -/
theorem c9_amended (md5f : List Char → Nat) (fs : FS)
    (inp outp outp2 tmp1 tmp2 tmp3 : Path) (mtime : Int)
    (hread : fs inp = some (FData.text []))
    (hinp1 : inp ≠ tmp1) (hout1 : ¬ tmp1 <+: outp) (hout2 : ¬ tmp2 <+: outp)
    (htest2 : ¬ tmp2 <+: testPath outp) (htno : testPath outp ≠ outp)
    (hout3 : outp ≠ tmp3) (hout23 : ¬ tmp3 <+: outp2) :
    (compress md5f fs inp outp false tmp1 tmp2 mtime).2 = Except.ok () ∧
    (compress md5f fs inp outp false tmp1 tmp2 mtime).1 outp =
      some (FData.tar
        [("head.txt.zst", FData.text []),
         ("seq.fa.zst", FData.text ['>', '\n']),
         ("qual.txt.zst", FData.text []),
         ("info.json", FData.meta ⟨0, 0, md5f [], mtime⟩)]) ∧
    (uncompress md5f (compress md5f fs inp outp false tmp1 tmp2 mtime).1
      outp outp2 false tmp3).2 = Except.ok () ∧
    (uncompress md5f (compress md5f fs inp outp false tmp1 tmp2 mtime).1
      outp outp2 false tmp3).1 outp2 = some (FData.text []) := by
  have h := roundtrip_ok md5f fs [] inp outp outp2 tmp1 tmp2 tmp3 mtime
    (fun r hr => absurd hr (List.not_mem_nil r)) hread hinp1 hout1 hout2
    htest2 htno hout3 hout23
  exact ⟨h.1, h.2.2.2, h.2.1, h.2.2.1⟩

theorem c9_amended_witness :
    (compress md5len (singleFS ["e.fq"] (FData.text [])) ["e.fq"] ["e.zfq"]
      false ["t1"] ["t2"] 0).2 = Except.ok () ∧
    (compress md5len (singleFS ["e.fq"] (FData.text [])) ["e.fq"] ["e.zfq"]
      false ["t1"] ["t2"] 0).1 ["e.zfq"] =
      some (FData.tar
        [("head.txt.zst", FData.text []),
         ("seq.fa.zst", FData.text ['>', '\n']),
         ("qual.txt.zst", FData.text []),
         ("info.json", FData.meta ⟨0, 0, 0, 0⟩)]) ∧
    (uncompress md5len (compress md5len (singleFS ["e.fq"] (FData.text []))
      ["e.fq"] ["e.zfq"] false ["t1"] ["t2"] 0).1
      ["e.zfq"] ["e2.fq"] false ["t3"]).2 = Except.ok () ∧
    (uncompress md5len (compress md5len (singleFS ["e.fq"] (FData.text []))
      ["e.fq"] ["e.zfq"] false ["t1"] ["t2"] 0).1
      ["e.zfq"] ["e2.fq"] false ["t3"]).1 ["e2.fq"] = some (FData.text []) := by
  have h := c9_amended md5len (singleFS ["e.fq"] (FData.text []))
    ["e.fq"] ["e.zfq"] ["e2.fq"] ["t1"] ["t2"] ["t3"] 0
    rfl (by decide) (by decide) (by decide) (by decide) (by decide)
    (by decide) (by decide)
  exact ⟨h.1, h.2.1, h.2.2.1, h.2.2.2⟩

/-- Claim C6: reading an archive that lacks any one of the four named entries
(`head.txt.zst`, `seq.fa.zst`, `qual.txt.zst`, `info.json`) fails: the result
is never success, the failure is not the consistency error but the one raised
while opening or decompressing the missing entry (`FileNotFoundError` for
`info.json`, the `zstd` process failure for a missing column), and no output
file is produced at the destination.  The hypotheses only require the
workspace directory to be fresh and the destination not to lie inside it. -/
theorem c6_missing_entry (md5f : List Char → Nat) (fs : FS) (inp outp tmp : Path)
    (skip : Bool) (entries : List (String × FData))
    (hread : fs inp = some (FData.tar entries))
    (hinp : inp ≠ tmp)
    (houtp : ¬ tmp <+: outp)
    (hfresh : ∀ a : String, fs (tmp ++ [a]) = none)
    (hmiss : (∀ e ∈ entries, e.1 ≠ "head.txt.zst") ∨
             (∀ e ∈ entries, e.1 ≠ "seq.fa.zst") ∨
             (∀ e ∈ entries, e.1 ≠ "qual.txt.zst") ∨
             (∀ e ∈ entries, e.1 ≠ "info.json")) :
    (uncompress md5f fs inp outp skip tmp).2 ≠ Except.ok () ∧
    (uncompress md5f fs inp outp skip tmp).2 ≠ Except.error ZErr.consistency ∧
    (uncompress md5f fs inp outp skip tmp).1 outp = fs outp := by
  have hreadM : fsMkdir fs tmp inp = some (FData.tar entries) := by
    rw [fsMkdir, fsWrite_ne _ _ _ _ hinp]
    exact hread
  have hno : outp ≠ tmp := ne_self_of_not_under tmp outp houtp
  have hne := ne_of_not_under tmp outp houtp
  have hfreshM : ∀ a : String, fsMkdir fs tmp (tmp ++ [a]) = none := by
    intro a
    rw [fsMkdir, fsWrite_ne _ _ _ _ (append_singleton_ne_dir tmp a)]
    exact hfresh a
  have hEx : ∀ (es : List (String × FData)) (fsx : FS),
      extractAll fsx tmp es outp = fsx outp :=
    fun es fsx => extractAll_not_under es fsx tmp outp houtp
  suffices hbody : (uncompressBody md5f (fsMkdir fs tmp) inp outp tmp skip).2 ≠
        Except.ok () ∧
      (uncompressBody md5f (fsMkdir fs tmp) inp outp tmp skip).2 ≠
        Except.error ZErr.consistency ∧
      (uncompressBody md5f (fsMkdir fs tmp) inp outp tmp skip).1 outp =
        fsMkdir fs tmp outp by
    obtain ⟨hb1, hb2, hb3⟩ := hbody
    refine ⟨hb1, hb2, ?_⟩
    show fsRmtree _ tmp outp = fs outp
    rw [fsRmtree_not_under _ _ _ houtp, hb3, fsMkdir, fsWrite_ne _ _ _ _ hno]
  rcases hmiss with hm | hm | hm | hm
  · -- head.txt.zst missing: the error surfaces at the third zstd step
    have hnone := (extractAll_missing entries (fsMkdir fs tmp) tmp _ hm).trans
      (hfreshM _)
    unfold uncompressBody
    rw [hreadM]
    dsimp only
    rcases hinfo : extractAll (fsMkdir fs tmp) tmp entries (tmp ++ ["info.json"])
      with _ | d
    · exact ⟨by simp, by simp, by simp [fsRemove, fsWrite, hEx, hne, hno]⟩
    cases d with
    | text s => exact ⟨by simp, by simp, by simp [fsRemove, fsWrite, hEx, hne, hno]⟩
    | tar es => exact ⟨by simp, by simp, by simp [fsRemove, fsWrite, hEx, hne, hno]⟩
    | dir => exact ⟨by simp, by simp, by simp [fsRemove, fsWrite, hEx, hne, hno]⟩
    | meta i =>
      dsimp only
      rcases hseq : extractAll (fsMkdir fs tmp) tmp entries (tmp ++ ["seq.fa.zst"])
        with _ | d2
      · exact ⟨by simp, by simp, by simp [fsRemove, fsWrite, hEx, hne, hno]⟩
      cases d2 with
      | meta i2 => exact ⟨by simp, by simp, by simp [fsRemove, fsWrite, hEx, hne, hno]⟩
      | tar es2 => exact ⟨by simp, by simp, by simp [fsRemove, fsWrite, hEx, hne, hno]⟩
      | dir => exact ⟨by simp, by simp, by simp [fsRemove, fsWrite, hEx, hne, hno]⟩
      | text seqD =>
        dsimp only
        rcases hqual : fsRemove (fsWrite (extractAll (fsMkdir fs tmp) tmp entries)
            (tmp ++ ["seq.fa"]) (FData.text seqD)) (tmp ++ ["seq.fa.zst"])
            (tmp ++ ["qual.txt.zst"]) with _ | d3
        · exact ⟨by simp, by simp, by simp [fsRemove, fsWrite, hEx, hne, hno]⟩
        cases d3 with
        | meta i3 => exact ⟨by simp, by simp, by simp [fsRemove, fsWrite, hEx, hne, hno]⟩
        | tar es3 => exact ⟨by simp, by simp, by simp [fsRemove, fsWrite, hEx, hne, hno]⟩
        | dir => exact ⟨by simp, by simp, by simp [fsRemove, fsWrite, hEx, hne, hno]⟩
        | text qualD =>
          dsimp only
          have hh2 : fsRemove (fsWrite (fsRemove (fsWrite
              (extractAll (fsMkdir fs tmp) tmp entries)
              (tmp ++ ["seq.fa"]) (FData.text seqD)) (tmp ++ ["seq.fa.zst"]))
              (tmp ++ ["qual.txt"]) (FData.text qualD)) (tmp ++ ["qual.txt.zst"])
              (tmp ++ ["head.txt.zst"]) = none := by
            simp [fsRemove, fsWrite, hnone]
          rw [hh2]
          exact ⟨by simp, by simp, by simp [fsRemove, fsWrite, hEx, hne, hno]⟩
  · -- seq.fa.zst missing: the error surfaces at the first zstd step
    have hnone := (extractAll_missing entries (fsMkdir fs tmp) tmp _ hm).trans
      (hfreshM _)
    unfold uncompressBody
    rw [hreadM]
    dsimp only
    rcases hinfo : extractAll (fsMkdir fs tmp) tmp entries (tmp ++ ["info.json"])
      with _ | d
    · exact ⟨by simp, by simp, by simp [fsRemove, fsWrite, hEx, hne, hno]⟩
    cases d with
    | text s => exact ⟨by simp, by simp, by simp [fsRemove, fsWrite, hEx, hne, hno]⟩
    | tar es => exact ⟨by simp, by simp, by simp [fsRemove, fsWrite, hEx, hne, hno]⟩
    | dir => exact ⟨by simp, by simp, by simp [fsRemove, fsWrite, hEx, hne, hno]⟩
    | meta i =>
      dsimp only
      rw [hnone]
      exact ⟨by simp, by simp, by simp [fsRemove, fsWrite, hEx, hne, hno]⟩
  · -- qual.txt.zst missing: the error surfaces at the second zstd step
    have hnone := (extractAll_missing entries (fsMkdir fs tmp) tmp _ hm).trans
      (hfreshM _)
    unfold uncompressBody
    rw [hreadM]
    dsimp only
    rcases hinfo : extractAll (fsMkdir fs tmp) tmp entries (tmp ++ ["info.json"])
      with _ | d
    · exact ⟨by simp, by simp, by simp [fsRemove, fsWrite, hEx, hne, hno]⟩
    cases d with
    | text s => exact ⟨by simp, by simp, by simp [fsRemove, fsWrite, hEx, hne, hno]⟩
    | tar es => exact ⟨by simp, by simp, by simp [fsRemove, fsWrite, hEx, hne, hno]⟩
    | dir => exact ⟨by simp, by simp, by simp [fsRemove, fsWrite, hEx, hne, hno]⟩
    | meta i =>
      dsimp only
      rcases hseq : extractAll (fsMkdir fs tmp) tmp entries (tmp ++ ["seq.fa.zst"])
        with _ | d2
      · exact ⟨by simp, by simp, by simp [fsRemove, fsWrite, hEx, hne, hno]⟩
      cases d2 with
      | meta i2 => exact ⟨by simp, by simp, by simp [fsRemove, fsWrite, hEx, hne, hno]⟩
      | tar es2 => exact ⟨by simp, by simp, by simp [fsRemove, fsWrite, hEx, hne, hno]⟩
      | dir => exact ⟨by simp, by simp, by simp [fsRemove, fsWrite, hEx, hne, hno]⟩
      | text seqD =>
        dsimp only
        have hq2 : fsRemove (fsWrite (extractAll (fsMkdir fs tmp) tmp entries)
            (tmp ++ ["seq.fa"]) (FData.text seqD)) (tmp ++ ["seq.fa.zst"])
            (tmp ++ ["qual.txt.zst"]) = none := by
          simp [fsRemove, fsWrite, hnone]
        rw [hq2]
        exact ⟨by simp, by simp, by simp [fsRemove, fsWrite, hEx, hne, hno]⟩
  · -- info.json missing: the error surfaces when opening the metadata
    have hnone := (extractAll_missing entries (fsMkdir fs tmp) tmp _ hm).trans
      (hfreshM _)
    unfold uncompressBody
    rw [hreadM]
    dsimp only
    rw [hnone]
    exact ⟨by simp, by simp, by simp [fsRemove, fsWrite, hEx, hne, hno]⟩

theorem c6_missing_entry_witness :
    (uncompress md5len (singleFS ["a.zfq"] (FData.tar
      [("head.txt.zst", FData.text ("r1\n".toList)),
       ("seq.fa.zst", FData.text (">\nACGT".toList)),
       ("info.json", FData.meta ⟨1, 5, 16, 0⟩)]))
      ["a.zfq"] ["o.fq"] false ["t"]).2 ≠ Except.ok () ∧
    (uncompress md5len (singleFS ["a.zfq"] (FData.tar
      [("head.txt.zst", FData.text ("r1\n".toList)),
       ("seq.fa.zst", FData.text (">\nACGT".toList)),
       ("info.json", FData.meta ⟨1, 5, 16, 0⟩)]))
      ["a.zfq"] ["o.fq"] false ["t"]).2 ≠ Except.error ZErr.consistency ∧
    (uncompress md5len (singleFS ["a.zfq"] (FData.tar
      [("head.txt.zst", FData.text ("r1\n".toList)),
       ("seq.fa.zst", FData.text (">\nACGT".toList)),
       ("info.json", FData.meta ⟨1, 5, 16, 0⟩)]))
      ["a.zfq"] ["o.fq"] false ["t"]).1 ["o.fq"] = none ∧
    (uncompress md5len (singleFS ["a.zfq"] (FData.tar
      [("head.txt.zst", FData.text ("r1\n".toList)),
       ("seq.fa.zst", FData.text (">\nACGT".toList)),
       ("info.json", FData.meta ⟨1, 5, 16, 0⟩)]))
      ["a.zfq"] ["o.fq"] false ["t"]).2 =
      Except.error (ZErr.zstdFailed "qual.txt.zst") := by
  have h := c6_missing_entry md5len (singleFS ["a.zfq"] (FData.tar
      [("head.txt.zst", FData.text ("r1\n".toList)),
       ("seq.fa.zst", FData.text (">\nACGT".toList)),
       ("info.json", FData.meta ⟨1, 5, 16, 0⟩)]))
    ["a.zfq"] ["o.fq"] ["t"] false
    [("head.txt.zst", FData.text ("r1\n".toList)),
     ("seq.fa.zst", FData.text (">\nACGT".toList)),
     ("info.json", FData.meta ⟨1, 5, 16, 0⟩)]
    rfl (by decide) (by decide) (fun a => by simp [singleFS])
    (Or.inr (Or.inr (Or.inl (by decide))))
  exact ⟨h.1, h.2.1, h.2.2.trans (by simp [singleFS]), rfl⟩

end Zfq
